import Mathlib

/-!
Verification of the transcript-serialization core of the
youtube-transcript-generator repository.

The Python source (src/src/utils/file_handler.py and
src/src/utils/video_processor.py) is embedded shallowly:

* Python `float` seconds values are modelled as exact rationals (`ℚ`);
  Python's float `%` with a positive divisor is `pyMod`, float `//` is
  `Int.floor` of the quotient, and `int(...)` applied to the nonnegative
  intermediate results is `Int.floor`.
* Python f-string fields `{n:02d}` / `{n:03d}` are `padZerosL` (sign first,
  then zero padding, then decimal digits; the minimum width counts the sign).
* Python strings are Lean `String`s; `str.strip()` is `pyStrip`,
  `str.replace('\t',' ')` is `pyReplaceTab`.
* File-writing serializers are modelled as functions returning the full
  file content as a `String`.
* `save_transcript`'s Python dict accumulates as an insertion-ordered
  association list with overwrite-in-place semantics (`dictInsert`); the
  serializer invocations and warning diagnostics it performs are collected
  in lists alongside the returned mapping.
* `clean_downloads`' filesystem effect is modelled on an abstract state of
  directory entries, with an oracle saying which `unlink` calls succeed
  (a failed unlink raises, is caught, and the loop continues).
-/

/-- Python's `%` for rationals with the divisor's sign (here only used with
positive divisors), as the source's `td.total_seconds() % 3600` etc. -/
def pyMod (a b : ℚ) : ℚ := a - b * ⌊a / b⌋

/-- The decimal digit character for `n < 10`, as Python's digit rendering. -/
def digitChar (n : Nat) : Char := Char.ofNat (48 + n)

/-- Decimal digits of a natural number, most significant first
(fuel-based so that the kernel can evaluate it). -/
def natDigitsAux : Nat → Nat → List Char
  | 0, _ => []
  | fuel+1, n => if n < 10 then [digitChar n] else natDigitsAux fuel (n / 10) ++ [digitChar (n % 10)]

/-- Decimal digit list of `n`, as Python's `str(n)` for `n ≥ 0`. -/
def natDigits (n : Nat) : List Char := natDigitsAux (n + 1) n

/-- Python's `str(i)` for an integer. -/
def intRepr (n : ℤ) : List Char :=
  if n < 0 then '-' :: natDigits n.natAbs else natDigits n.natAbs

/-- Python's `f"{n:0wd}"`: sign, then zero padding up to minimum width `w`
(the sign counts toward the width), then the decimal digits. -/
def padZerosL (w : Nat) (n : ℤ) : List Char :=
  if n < 0 then
    '-' :: (List.replicate (w - ((natDigits n.natAbs).length + 1)) '0' ++ natDigits n.natAbs)
  else
    List.replicate (w - (natDigits n.natAbs).length) '0' ++ natDigits n.natAbs

/-- `hours = int(td.total_seconds() // 3600)` from `format_timestamp`. -/
def ts_hours (s : ℚ) : ℤ := ⌊s / 3600⌋

/-- `minutes = int((td.total_seconds() % 3600) // 60)` from `format_timestamp`. -/
def ts_minutes (s : ℚ) : ℤ := ⌊pyMod s 3600 / 60⌋

/-- `secs = int(td.total_seconds() % 60)` from `format_timestamp`. -/
def ts_secs (s : ℚ) : ℤ := ⌊pyMod s 60⌋

/-- `millis = int((td.total_seconds() % 1) * 1000)` from `format_timestamp`. -/
def ts_millis (s : ℚ) : ℤ := ⌊pyMod s 1 * 1000⌋

/-- `format_timestamp` from src/src/utils/file_handler.py: decompose the
seconds offset and render `HH:MM:SS,mmm` (srt), `HH:MM:SS.mmm` (vtt) or
`HH:MM:SS` (any other format tag). -/
def format_timestamp (seconds : ℚ) (format_type : String) : String :=
  if format_type = "srt" then
    String.mk (padZerosL 2 (ts_hours seconds) ++ ':' ::
      (padZerosL 2 (ts_minutes seconds) ++ ':' ::
        (padZerosL 2 (ts_secs seconds) ++ ',' :: padZerosL 3 (ts_millis seconds))))
  else if format_type = "vtt" then
    String.mk (padZerosL 2 (ts_hours seconds) ++ ':' ::
      (padZerosL 2 (ts_minutes seconds) ++ ':' ::
        (padZerosL 2 (ts_secs seconds) ++ '.' :: padZerosL 3 (ts_millis seconds))))
  else
    String.mk (padZerosL 2 (ts_hours seconds) ++ ':' ::
      (padZerosL 2 (ts_minutes seconds) ++ ':' :: padZerosL 2 (ts_secs seconds)))

/-- Modelled from the spec: the spec's decomposition of a nonnegative seconds
value, phrased over the whole-second count `⌊s⌋₊` with natural-number
division: `hours = floor(seconds/3600)`, `minutes = floor((seconds mod 3600)/60)`,
`secs = floor(seconds mod 60)`. -/
def spec_hours (s : ℚ) : ℕ := ⌊s⌋₊ / 3600

/-- Modelled from the spec: minutes field of the decomposition. -/
def spec_minutes (s : ℚ) : ℕ := ⌊s⌋₊ % 3600 / 60

/-- Modelled from the spec: seconds field of the decomposition. -/
def spec_secs (s : ℚ) : ℕ := ⌊s⌋₊ % 60

/-- The characters `'<>:"/\\|?*'` of `sanitize_filename`
(src/src/utils/video_processor.py), in source order. -/
def invalid_chars : List Char := ['<', '>', ':', '"', '/', '\\', '|', '?', '*']

/-- `sanitize_filename` on the character list of the input: the source loops
over `invalid_chars`, replacing every occurrence of each with `'_'`. -/
def sanitizeL (l : List Char) : List Char :=
  invalid_chars.foldl (fun acc c => acc.map (fun x => if x = c then '_' else x)) l

/-- `sanitize_filename` from src/src/utils/video_processor.py. -/
def sanitize_filename (filename : String) : String := String.mk (sanitizeL filename.data)

/-- Modelled from the spec for comparison: one-pass substitution of the
invalid characters, as the spec describes sanitization. -/
def sanitizeChar (c : Char) : Char := if c ∈ invalid_chars then '_' else c

/-- The effect of the `sanitize_filename` loop on one character: the
sequential per-character replacement passes, folded over `invalid_chars`. -/
def charFold (x : Char) : Char :=
  invalid_chars.foldl (fun y c => if y = c then '_' else y) x

/-- The whitespace characters stripped by Python's `str.strip()`
(the ASCII ones; segment text is modelled over these). -/
def pySpace (c : Char) : Bool :=
  c = ' ' || c = '\t' || c = '\n' || c = '\r' || c = '\x0b' || c = '\x0c'

/-- Python `str.strip()` on a character list. -/
def stripL (l : List Char) : List Char :=
  ((l.dropWhile pySpace).reverse.dropWhile pySpace).reverse

/-- Python `str.strip()`. -/
def pyStrip (s : String) : String := String.mk (stripL s.data)

/-- Python `str.replace('\t', ' ')`: every tab becomes a single space. -/
def pyReplaceTab (s : String) : String :=
  String.mk (s.data.map (fun c => if c = '\t' then ' ' else c))

/-- One Whisper segment as the serializers consume it: `segment['start']`,
`segment['end']`, `segment['text']`. -/
structure Segment where
  start : ℚ
  stop : ℚ
  text : String
deriving DecidableEq

/-- Python `str(i)` for the 1-based cue index. -/
def natRepr (n : ℕ) : String := String.mk (natDigits n)

/-- One cue block of `save_as_srt`'s loop body: index line, timestamp line,
trimmed text, blank separator line. -/
def srtBlock (i : ℕ) (seg : Segment) : String :=
  natRepr i ++ "\n" ++ format_timestamp seg.start "srt" ++ " --> " ++
    format_timestamp seg.stop "srt" ++ "\n" ++ pyStrip seg.text ++ "\n\n"

/-- The `for i, segment in enumerate(result['segments'], 1)` loop of
`save_as_srt`, accumulating the file content. -/
def srtGo (i : ℕ) : List Segment → String
  | [] => ""
  | seg :: rest => srtBlock i seg ++ srtGo (i + 1) rest

/-- `save_as_srt` from src/src/utils/file_handler.py, as the file content
it writes. -/
def save_as_srt (segments : List Segment) : String := srtGo 1 segments

/-- Round half to even at integer precision, as Python's float-to-decimal
formatting behaves on exact halves. -/
def rhe (q : ℚ) : ℤ :=
  if Int.fract q < 1/2 then ⌊q⌋
  else if 1/2 < Int.fract q then ⌊q⌋ + 1
  else if ⌊q⌋ % 2 = 0 then ⌊q⌋ else ⌊q⌋ + 1

/-- Python `f"{x:.2f}"`: fixed-point rendering with exactly two fractional
digits (the float value modelled as an exact rational). -/
def fmtFixed2 (q : ℚ) : String :=
  String.mk
    ((if rhe (q * 100) < 0 then ['-'] else []) ++
      (natDigits ((rhe (q * 100)).natAbs / 100) ++
        '.' :: padZerosL 2 (((rhe (q * 100)).natAbs % 100 : ℕ) : ℤ)))

/-- One data row of `save_as_tsv`'s loop body. -/
def tsvRow (seg : Segment) : String :=
  fmtFixed2 seg.start ++ "\t" ++ fmtFixed2 seg.stop ++ "\t" ++
    pyReplaceTab (pyStrip seg.text) ++ "\n"

/-- `save_as_tsv` from src/src/utils/file_handler.py, as the file content it
writes: header row then one row per segment in input order. -/
def save_as_tsv (segments : List Segment) : String :=
  "start\tend\ttext\n" ++ String.join (segments.map tsvRow)

/-- Newline count of a file content; a written text file with every line
terminated by `'\n'` has as many lines as newline characters. -/
def countNl (s : String) : ℕ := s.data.count '\n'

/-- The keys of the `format_handlers` dict in `save_transcript`, in source
order. -/
def format_handler_keys : List String := ["txt", "srt", "vtt", "json", "tsv"]

/-- Python dict assignment `d[k] = v`: overwriting an existing key keeps its
original position, a new key is appended at the end. -/
def dictInsert (d : List (String × String)) (k v : String) : List (String × String) :=
  if d.any (fun p => p.1 = k) then d.map (fun p => if p.1 = k then (k, v) else p)
  else d ++ [(k, v)]

/-- The observable trace of one `save_transcript` call: the returned
`output_files` mapping, the serializer invocations `(format, path)` in the
order performed, and the formats reported by `Unknown format` warnings. -/
structure SaveTrace where
  files : List (String × String)
  calls : List (String × String)
  warns : List String
deriving DecidableEq

/-- The path `output_dir / f"{base_filename}.{fmt}"` built by
`save_transcript`. -/
def savePath (output_dir base_filename fmt : String) : String :=
  output_dir ++ "/" ++ base_filename ++ "." ++ fmt

/-- The `for fmt in formats` loop of `save_transcript`: recognized formats
invoke their serializer and record the path; unrecognized ones only warn. -/
def saveLoop (output_dir base_filename : String) (formats : List String)
    (acc : SaveTrace) : SaveTrace :=
  formats.foldl (fun st fmt =>
    if fmt ∈ format_handler_keys then
      { st with
        files := dictInsert st.files fmt (savePath output_dir base_filename fmt),
        calls := st.calls ++ [(fmt, savePath output_dir base_filename fmt)] }
    else { st with warns := st.warns ++ [fmt] }) acc

/-- `save_transcript` from src/src/utils/file_handler.py, as its observable
trace: builds `base_filename = f"{video_id}_{safe_title}"` from the sanitized
title and runs the dispatch loop over the requested formats. -/
def save_transcript (video_id video_title output_dir : String)
    (formats : List String) : SaveTrace :=
  saveLoop output_dir (video_id ++ "_" ++ sanitize_filename video_title) formats ⟨[], [], []⟩

/-- First-occurrence deduplication: the key order a Python dict ends with
after repeated assignments. -/
def keepFirst (l : List String) : List String :=
  l.foldl (fun acc x => if x ∈ acc then acc else acc ++ [x]) []

/-- One entry directly inside the download directory, as `glob("*")`
enumerates it: its full path string and whether it is a regular file. -/
structure FsEntry where
  path : String
  isFile : Bool
deriving DecidableEq

/-- The filesystem state `clean_downloads` acts on: whether the download
directory exists, its direct entries, and an opaque component for everything
outside the download directory. -/
structure FsState where
  dirExists : Bool
  entries : List FsEntry
  outside : List String
deriving DecidableEq

/-- `clean_downloads` from src/src/utils/file_handler.py: returns immediately
when the directory does not exist; otherwise unlinks every regular file whose
path is not in `keep_files`. `unlink_ok` is the oracle for whether a given
`unlink` call succeeds; a failing unlink raises, the exception is caught and
logged, and the loop continues, so exactly the files with a successful unlink
disappear. -/
def clean_downloads (fs : FsState) (keep_files : List String)
    (unlink_ok : String → Bool) : FsState :=
  if fs.dirExists = false then fs
  else
    { fs with
      entries := fs.entries.filter (fun e =>
        !(e.isFile && !(keep_files.contains e.path) && unlink_ok e.path)) }

theorem floor_div_int (s : ℚ) (n : ℤ) (hn : 0 < n) : ⌊s / (n : ℚ)⌋ = ⌊s⌋ / n := by
  have hnq : (0 : ℚ) < (n : ℚ) := by exact_mod_cast hn
  rw [Int.floor_eq_iff]
  constructor
  · rw [le_div_iff₀ hnq]
    have h1 : (⌊s⌋ / n) * n ≤ ⌊s⌋ := Int.ediv_mul_le ⌊s⌋ hn.ne'
    calc ((⌊s⌋ / n : ℤ) : ℚ) * (n : ℚ) = (((⌊s⌋ / n) * n : ℤ) : ℚ) := by push_cast; ring
    _ ≤ ((⌊s⌋ : ℤ) : ℚ) := by exact_mod_cast h1
    _ ≤ s := Int.floor_le s
  · rw [div_lt_iff₀ hnq]
    have h1 : ⌊s⌋ < (⌊s⌋ / n + 1) * n := Int.lt_ediv_add_one_mul_self ⌊s⌋ hn
    calc s < (⌊s⌋ : ℚ) + 1 := Int.lt_floor_add_one s
    _ ≤ (((⌊s⌋ / n + 1) * n : ℤ) : ℚ) := by exact_mod_cast h1
    _ = (((⌊s⌋ / n) : ℤ) + 1 : ℚ) * n := by push_cast; ring

theorem floor_pyMod (s : ℚ) (n : ℤ) (hn : 0 < n) : ⌊pyMod s (n : ℚ)⌋ = ⌊s⌋ % n := by
  rw [pyMod, floor_div_int s n hn]
  have h : s - (n : ℚ) * ((⌊s⌋ / n : ℤ) : ℚ) = s - (((n * (⌊s⌋ / n)) : ℤ) : ℚ) := by
    push_cast; ring
  rw [h, Int.floor_sub_int, Int.emod_def]

theorem pyMod_eq_mul_fract (s b : ℚ) (hb : b ≠ 0) : pyMod s b = b * Int.fract (s / b) := by
  rw [pyMod, Int.fract]
  field_simp

theorem pyMod_nonneg (s b : ℚ) (hb : 0 < b) : 0 ≤ pyMod s b := by
  rw [pyMod_eq_mul_fract s b hb.ne']
  exact mul_nonneg hb.le (Int.fract_nonneg _)

theorem pyMod_lt (s b : ℚ) (hb : 0 < b) : pyMod s b < b := by
  rw [pyMod_eq_mul_fract s b hb.ne']
  calc b * Int.fract (s / b) < b * 1 := mul_lt_mul_of_pos_left (Int.fract_lt_one _) hb
  _ = b := mul_one b

theorem pyMod_one (s : ℚ) : pyMod s 1 = Int.fract s := by
  rw [pyMod, Int.fract]
  norm_num

theorem ts_hours_eq (s : ℚ) : ts_hours s = ⌊s⌋ / 3600 := by
  have h := floor_div_int s 3600 (by norm_num)
  rw [ts_hours]
  exact_mod_cast h

theorem ts_secs_eq (s : ℚ) : ts_secs s = ⌊s⌋ % 60 := by
  have h := floor_pyMod s 60 (by norm_num)
  rw [ts_secs]
  exact_mod_cast h

theorem ts_minutes_eq (s : ℚ) : ts_minutes s = ⌊s⌋ % 3600 / 60 := by
  have h1 := floor_div_int (pyMod s 3600) 60 (by norm_num)
  have h2 := floor_pyMod s 3600 (by norm_num)
  rw [ts_minutes]
  rw [show ((60 : ℚ)) = ((60 : ℤ) : ℚ) by norm_num, h1]
  have h2' : ⌊pyMod s 3600⌋ = ⌊s⌋ % 3600 := by exact_mod_cast h2
  rw [h2']

theorem ts_millis_eq (s : ℚ) : ts_millis s = ⌊Int.fract s * 1000⌋ := by
  rw [ts_millis, pyMod_one]

theorem ts_millis_nonneg (s : ℚ) : 0 ≤ ts_millis s := by
  rw [ts_millis_eq]
  exact Int.floor_nonneg.2 (mul_nonneg (Int.fract_nonneg s) (by norm_num))

theorem ts_millis_lt (s : ℚ) : ts_millis s < 1000 := by
  rw [ts_millis_eq]
  rw [Int.floor_lt]
  calc Int.fract s * 1000 < 1 * 1000 := by
        exact mul_lt_mul_of_pos_right (Int.fract_lt_one s) (by norm_num)
  _ = ((1000 : ℤ) : ℚ) := by norm_num

theorem ts_secs_nonneg (s : ℚ) : 0 ≤ ts_secs s := by
  rw [ts_secs_eq]; exact Int.emod_nonneg _ (by norm_num)

theorem ts_secs_lt (s : ℚ) : ts_secs s < 60 := by
  rw [ts_secs_eq]; exact Int.emod_lt_of_pos _ (by norm_num)

theorem ts_minutes_nonneg (s : ℚ) : 0 ≤ ts_minutes s := by
  rw [ts_minutes_eq]
  exact Int.ediv_nonneg (Int.emod_nonneg _ (by norm_num)) (by norm_num)

theorem ts_minutes_lt (s : ℚ) : ts_minutes s < 60 := by
  rw [ts_minutes_eq]
  have h1 : ⌊s⌋ % 3600 < 3600 := Int.emod_lt_of_pos _ (by norm_num)
  omega



theorem floor_natCast_of_nonneg (s : ℚ) (h : 0 ≤ s) : ((⌊s⌋₊ : ℤ)) = ⌊s⌋ := by
  rw [← Int.floor_toNat, Int.toNat_of_nonneg (Int.floor_nonneg.2 h)]

theorem ts_hours_spec (s : ℚ) (h : 0 ≤ s) : ts_hours s = (spec_hours s : ℤ) := by
  rw [ts_hours_eq, spec_hours, ← floor_natCast_of_nonneg s h]
  push_cast
  rfl

theorem ts_minutes_spec (s : ℚ) (h : 0 ≤ s) : ts_minutes s = (spec_minutes s : ℤ) := by
  rw [ts_minutes_eq, spec_minutes, ← floor_natCast_of_nonneg s h]
  push_cast
  rfl

theorem ts_secs_spec (s : ℚ) (h : 0 ≤ s) : ts_secs s = (spec_secs s : ℤ) := by
  rw [ts_secs_eq, spec_secs, ← floor_natCast_of_nonneg s h]
  push_cast
  rfl

theorem natDigitsAux_small (fuel n : ℕ) (h : n < 10) :
    natDigitsAux (fuel + 1) n = [digitChar n] := by
  simp [natDigitsAux, h]

theorem natDigits_small {n : ℕ} (h : n < 10) : natDigits n = [digitChar n] :=
  natDigitsAux_small n n h

theorem natDigits_two {n : ℕ} (h1 : 10 ≤ n) (h2 : n < 100) :
    natDigits n = [digitChar (n / 10), digitChar (n % 10)] := by
  obtain ⟨m, rfl⟩ : ∃ m, n = m + 1 := ⟨n - 1, by omega⟩
  rw [natDigits, natDigitsAux, if_neg (by omega)]
  rw [natDigitsAux_small m _ (by omega)]
  rfl

theorem natDigits_three {n : ℕ} (h1 : 100 ≤ n) (h2 : n < 1000) :
    natDigits n = [digitChar (n / 100), digitChar (n / 10 % 10), digitChar (n % 10)] := by
  obtain ⟨m, rfl⟩ : ∃ m, n = m + 1 := ⟨n - 1, by omega⟩
  obtain ⟨k, hk⟩ : ∃ k, m = k + 1 := ⟨m - 1, by omega⟩
  rw [natDigits, natDigitsAux, if_neg (by omega)]
  rw [hk]
  rw [natDigitsAux, if_neg (by omega)]
  rw [natDigitsAux_small k _ (by omega)]
  rw [show (k+1+1)/10/10 = (k+1+1)/100 from by omega]
  rfl

theorem natDigits_length_pos (n : ℕ) : 1 ≤ (natDigits n).length := by
  by_cases h : n < 10
  · rw [natDigits_small h]; simp
  · rcases Nat.lt_or_ge n 100 with h2 | h2
    · rw [natDigits_two (by omega) h2]; simp
    · rw [natDigits]
      obtain ⟨m, rfl⟩ : ∃ m, n = m + 1 := ⟨n - 1, by omega⟩
      rw [natDigitsAux, if_neg (by omega)]
      simp


theorem padZerosL_length_ge (w : ℕ) (n : ℤ) : w ≤ (padZerosL w n).length := by
  rw [padZerosL]
  split_ifs with h
  · simp only [List.length_cons, List.length_append, List.length_replicate]
    omega
  · simp only [List.length_append, List.length_replicate]
    omega

theorem padZerosL_length_two (n : ℤ) (h0 : 0 ≤ n) (h : n < 100) :
    (padZerosL 2 n).length = 2 := by
  have hn : n.natAbs < 100 := by omega
  rw [padZerosL, if_neg (by omega)]
  simp only [List.length_append, List.length_replicate]
  rcases Nat.lt_or_ge n.natAbs 10 with h1 | h1
  · rw [natDigits_small h1]; rfl
  · rw [natDigits_two h1 hn]; rfl

theorem padZerosL_length_three (n : ℤ) (h0 : 0 ≤ n) (h : n < 1000) :
    (padZerosL 3 n).length = 3 := by
  have hn : n.natAbs < 1000 := by omega
  rw [padZerosL, if_neg (by omega)]
  simp only [List.length_append, List.length_replicate]
  rcases Nat.lt_or_ge n.natAbs 10 with h1 | h1
  · rw [natDigits_small h1]; rfl
  · rcases Nat.lt_or_ge n.natAbs 100 with h2 | h2
    · rw [natDigits_two h1 h2]; rfl
    · rw [natDigits_three h2 hn]; rfl

theorem padZerosL_neg_head (w : ℕ) (n : ℤ) (h : n < 0) :
    ∃ t, padZerosL w n = '-' :: t := by
  rw [padZerosL, if_pos h]
  exact ⟨_, rfl⟩

-- C1 counterexample evaluation pieces


theorem foldl_replace_map (cs : List Char) (l : List Char) :
    cs.foldl (fun acc c => acc.map (fun x => if x = c then '_' else x)) l
      = l.map (fun x => cs.foldl (fun y c => if y = c then '_' else y) x) := by
  induction cs generalizing l with
  | nil => simp
  | cons c cs ih =>
    rw [List.foldl_cons, ih, List.map_map]
    rfl

theorem charFold_eq (x : Char) : charFold x = sanitizeChar x := by
  by_cases h1 : x = '<'
  · subst h1; decide
  by_cases h2 : x = '>'
  · subst h2; decide
  by_cases h3 : x = ':'
  · subst h3; decide
  by_cases h4 : x = '"'
  · subst h4; decide
  by_cases h5 : x = '/'
  · subst h5; decide
  by_cases h6 : x = '\\'
  · subst h6; decide
  by_cases h7 : x = '|'
  · subst h7; decide
  by_cases h8 : x = '?'
  · subst h8; decide
  by_cases h9 : x = '*'
  · subst h9; decide
  simp [charFold, sanitizeChar, invalid_chars, h1, h2, h3, h4, h5, h6, h7, h8, h9]

theorem sanitizeL_eq_map (l : List Char) : sanitizeL l = l.map sanitizeChar := by
  rw [sanitizeL, foldl_replace_map]
  exact List.map_congr_left (fun x _ => charFold_eq x)

/-- Claim C1 counterexample: the millisecond component is not
`round((seconds mod 1) * 1000)`. At `seconds = 0.0009` the rounded value is
`1` but the code truncates to `0`, rendering `00:00:00.000`. -/
theorem ts_millis_round_cex :
    ts_millis ((9:ℚ)/10000) = 0 ∧ round (pyMod ((9:ℚ)/10000) 1 * 1000) = 1 ∧
    format_timestamp ((9:ℚ)/10000) "vtt" = "00:00:00.000" := by
  refine ⟨by norm_num [ts_millis, pyMod], by norm_num [pyMod, round_eq], ?_⟩
  have h1 : ts_hours ((9:ℚ)/10000) = 0 := by norm_num [ts_hours]
  have h2 : ts_minutes ((9:ℚ)/10000) = 0 := by norm_num [ts_minutes, pyMod]
  have h3 : ts_secs ((9:ℚ)/10000) = 0 := by norm_num [ts_secs, pyMod]
  have h4 : ts_millis ((9:ℚ)/10000) = 0 := by norm_num [ts_millis, pyMod]
  rw [format_timestamp, if_neg (by decide), if_pos rfl, h1, h2, h3, h4]
  decide

/-- Claim C1 (amended): `format_timestamp` computes the millisecond component
as `floor((seconds mod 1) * 1000)` — truncation, not rounding. The fractional
part is always `< 1`, so the millisecond field is always in `0..999`, no carry
into the seconds field is ever needed, and the seconds field value is always
in `0..59` (never 60). In particular `format_timestamp(59.999, VTT)` (the
value taken exactly) renders `"00:00:59.999"`, not `"00:00:60.000"`. -/
theorem ts_millis_trunc_no_carry :
    (∀ s : ℚ, ts_millis s = ⌊pyMod s 1 * 1000⌋ ∧
      0 ≤ ts_millis s ∧ ts_millis s ≤ 999 ∧ 0 ≤ ts_secs s ∧ ts_secs s ≤ 59) ∧
    format_timestamp ((59999:ℚ)/1000) "vtt" = "00:00:59.999" := by
  constructor
  · intro s
    refine ⟨rfl, ts_millis_nonneg s, ?_, ts_secs_nonneg s, ?_⟩
    · have := ts_millis_lt s; omega
    · have := ts_secs_lt s; omega
  · have h1 : ts_hours ((59999:ℚ)/1000) = 0 := by norm_num [ts_hours, Int.floor_eq_iff]
    have h2 : ts_minutes ((59999:ℚ)/1000) = 0 := by
      norm_num [ts_minutes, pyMod, Int.floor_eq_iff]
    have h3 : ts_secs ((59999:ℚ)/1000) = 59 := by
      norm_num [ts_secs, pyMod, Int.floor_eq_iff]
    have h4 : ts_millis ((59999:ℚ)/1000) = 999 := by
      norm_num [ts_millis, pyMod, Int.floor_eq_iff]
    rw [format_timestamp, if_neg (by decide), if_pos rfl, h1, h2, h3, h4]
    decide

/-- Claim C2: for nonnegative seconds, `format_timestamp` decomposes the input
into `hours = floor(seconds/3600)`, `minutes = floor((seconds mod 3600)/60)`,
`secs = floor(seconds mod 60)` (natural-number division on the whole-second
count), renders SRT as `HH:MM:SS,mmm` and VTT as `HH:MM:SS.mmm`, with the
hours field at least two digits and the minutes/seconds/millis fields of
fixed widths 2, 2, 3; any unrecognized style tag falls back to `HH:MM:SS`;
`format_timestamp(0, SRT) = "00:00:00,000"` and
`format_timestamp(3661.5, SRT) = "01:01:01,500"`. -/
theorem format_timestamp_c2 :
    (∀ s : ℚ, 0 ≤ s →
      ts_hours s = (spec_hours s : ℤ) ∧ ts_minutes s = (spec_minutes s : ℤ) ∧
      ts_secs s = (spec_secs s : ℤ) ∧
      format_timestamp s "srt" =
        String.mk (padZerosL 2 (ts_hours s) ++ ':' :: (padZerosL 2 (ts_minutes s) ++ ':' ::
          (padZerosL 2 (ts_secs s) ++ ',' :: padZerosL 3 (ts_millis s)))) ∧
      format_timestamp s "vtt" =
        String.mk (padZerosL 2 (ts_hours s) ++ ':' :: (padZerosL 2 (ts_minutes s) ++ ':' ::
          (padZerosL 2 (ts_secs s) ++ '.' :: padZerosL 3 (ts_millis s)))) ∧
      (∀ sty : String, sty ≠ "srt" → sty ≠ "vtt" →
        format_timestamp s sty =
          String.mk (padZerosL 2 (ts_hours s) ++ ':' ::
            (padZerosL 2 (ts_minutes s) ++ ':' :: padZerosL 2 (ts_secs s)))) ∧
      (padZerosL 2 (ts_minutes s)).length = 2 ∧ (padZerosL 2 (ts_secs s)).length = 2 ∧
      (padZerosL 3 (ts_millis s)).length = 3 ∧ 2 ≤ (padZerosL 2 (ts_hours s)).length) ∧
    format_timestamp 0 "srt" = "00:00:00,000" ∧
    format_timestamp ((7323:ℚ)/2) "srt" = "01:01:01,500" := by
  refine ⟨fun s hs => ?_, ?_, ?_⟩
  · refine ⟨ts_hours_spec s hs, ts_minutes_spec s hs, ts_secs_spec s hs, ?_, ?_, ?_, ?_, ?_, ?_, ?_⟩
    · rw [format_timestamp, if_pos rfl]
    · rw [format_timestamp, if_neg (by decide), if_pos rfl]
    · intro sty hsty1 hsty2
      rw [format_timestamp, if_neg hsty1, if_neg hsty2]
    · exact padZerosL_length_two _ (ts_minutes_nonneg s) (by have := ts_minutes_lt s; omega)
    · exact padZerosL_length_two _ (ts_secs_nonneg s) (by have := ts_secs_lt s; omega)
    · exact padZerosL_length_three _ (ts_millis_nonneg s) (ts_millis_lt s)
    · exact padZerosL_length_ge 2 (ts_hours s)
  · have h1 : ts_hours 0 = 0 := by norm_num [ts_hours]
    have h2 : ts_minutes 0 = 0 := by norm_num [ts_minutes, pyMod]
    have h3 : ts_secs 0 = 0 := by norm_num [ts_secs, pyMod]
    have h4 : ts_millis 0 = 0 := by norm_num [ts_millis, pyMod]
    rw [format_timestamp, if_pos rfl, h1, h2, h3, h4]
    decide
  · have h1 : ts_hours ((7323:ℚ)/2) = 1 := by norm_num [ts_hours]
    have h2 : ts_minutes ((7323:ℚ)/2) = 1 := by norm_num [ts_minutes, pyMod]
    have h3 : ts_secs ((7323:ℚ)/2) = 1 := by norm_num [ts_secs, pyMod]
    have h4 : ts_millis ((7323:ℚ)/2) = 500 := by norm_num [ts_millis, pyMod]
    rw [format_timestamp, if_pos rfl, h1, h2, h3, h4]
    decide

/-- Witness for `format_timestamp_c2` at `seconds = 3661.5`. -/
theorem format_timestamp_c2_witness :
    ts_hours ((7323:ℚ)/2) = (spec_hours ((7323:ℚ)/2) : ℤ) :=
  (format_timestamp_c2.1 ((7323:ℚ)/2) (by norm_num)).1

/-- Claim C3 counterexample: negative seconds are not treated as 0. At
`seconds = -1`, Python's floor division and modulo give
`"-1:59:59,000"`, which differs from `format_timestamp 0 = "00:00:00,000"`. -/
theorem format_timestamp_neg_cex :
    format_timestamp (-1 : ℚ) "srt" = "-1:59:59,000" ∧
    format_timestamp (0 : ℚ) "srt" = "00:00:00,000" ∧
    format_timestamp (-1 : ℚ) "srt" ≠ format_timestamp (0 : ℚ) "srt" := by
  have ha : format_timestamp (-1 : ℚ) "srt" = "-1:59:59,000" := by
    have h1 : ts_hours (-1) = -1 := by norm_num [ts_hours, Int.floor_eq_iff]
    have h2 : ts_minutes (-1) = 59 := by norm_num [ts_minutes, pyMod, Int.floor_eq_iff]
    have h3 : ts_secs (-1) = 59 := by norm_num [ts_secs, pyMod, Int.floor_eq_iff]
    have h4 : ts_millis (-1) = 0 := by norm_num [ts_millis, pyMod, Int.floor_eq_iff]
    rw [format_timestamp, if_pos rfl, h1, h2, h3, h4]
    decide
  have hb : format_timestamp (0 : ℚ) "srt" = "00:00:00,000" := format_timestamp_c2.2.1
  refine ⟨ha, hb, ?_⟩
  rw [ha, hb]
  decide

/-- Claim C3 (amended): a strictly negative seconds value is not clamped to 0;
the function still returns a string for every style, but the hours field
`floor(seconds/3600)` is negative, so the output starts with `'-'` and
differs from `format_timestamp 0 style`. -/
theorem format_timestamp_neg_amended (s : ℚ) (h : s < 0) (sty : String) :
    ts_hours s < 0 ∧ (format_timestamp s sty).data.head? = some '-' ∧
    format_timestamp s sty ≠ format_timestamp 0 sty := by
  have hh : ts_hours s < 0 := by
    rw [ts_hours]
    have hq : s / 3600 < 0 := div_neg_of_neg_of_pos h (by norm_num)
    exact Int.floor_lt.2 (by exact_mod_cast hq)
  obtain ⟨t, ht⟩ := padZerosL_neg_head 2 (ts_hours s) hh
  have h1 : ts_hours 0 = 0 := by norm_num [ts_hours]
  have hpad0 : padZerosL 2 (ts_hours 0) = ['0', '0'] := by rw [h1]; decide
  have hhead : (format_timestamp s sty).data.head? = some '-' := by
    rw [format_timestamp]
    split_ifs <;> simp [ht]
  have hhead0 : (format_timestamp 0 sty).data.head? = some '0' := by
    rw [format_timestamp]
    split_ifs <;> simp [hpad0]
  refine ⟨hh, hhead, fun heq => ?_⟩
  rw [heq, hhead0] at hhead
  exact absurd hhead (by decide)

/-- Witness for `format_timestamp_neg_amended` at `seconds = -1`, SRT style. -/
theorem format_timestamp_neg_amended_witness :
    ts_hours (-1 : ℚ) < 0 ∧ (format_timestamp (-1 : ℚ) "srt").data.head? = some '-' ∧
    format_timestamp (-1 : ℚ) "srt" ≠ format_timestamp (0 : ℚ) "srt" :=
  format_timestamp_neg_amended (-1) (by norm_num) "srt"

/-- Claim C7: `sanitize_filename` is pure and total; it maps every character
through `sanitizeChar` (each of the characters in the invalid set becomes
`'_'`, all other characters are unchanged), so the output has the same length
as the input; `sanitize_filename "a/b:c*d" = "a_b_c_d"` and
`sanitize_filename "" = ""`. -/
theorem sanitize_filename_c7 :
    (∀ s : String, (sanitize_filename s).data = s.data.map sanitizeChar ∧
      (sanitize_filename s).length = s.length) ∧
    sanitize_filename "a/b:c*d" = "a_b_c_d" ∧ sanitize_filename "" = "" := by
  refine ⟨fun s => ⟨?_, ?_⟩, by decide, by decide⟩
  · rw [sanitize_filename]
    exact sanitizeL_eq_map s.data
  · rw [sanitize_filename]
    show (sanitizeL s.data).length = s.data.length
    rw [sanitizeL_eq_map, List.length_map]

/-- Claim C8: `sanitize_filename` is idempotent. -/
theorem sanitize_filename_idem (s : String) :
    sanitize_filename (sanitize_filename s) = sanitize_filename s := by
  have hchar : ∀ c, sanitizeChar (sanitizeChar c) = sanitizeChar c := by
    intro c
    simp only [sanitizeChar]
    by_cases h : c ∈ invalid_chars <;> simp [h]
  show String.mk (sanitizeL (sanitize_filename s).data) = sanitize_filename s
  rw [sanitize_filename]
  show String.mk (sanitizeL (sanitizeL s.data)) = String.mk (sanitizeL s.data)
  rw [sanitizeL_eq_map (sanitizeL s.data), sanitizeL_eq_map s.data, List.map_map]
  refine congrArg String.mk ?_
  exact List.map_congr_left (fun x _ => hchar x)

theorem data_mk (l : List Char) : (String.mk l).data = l := rfl

theorem join_cons (s : String) (l : List String) :
    String.join (s :: l) = s ++ String.join l := by
  apply String.ext
  rw [String.data_append, String.join_eq, String.join_eq]
  simp

theorem srtGo_eq_join (segments : List Segment) :
    ∀ i, srtGo i segments =
      String.join ((segments.enumFrom i).map (fun p => srtBlock p.1 p.2)) := by
  induction segments with
  | nil => intro i; rfl
  | cons seg rest ih =>
    intro i
    rw [srtGo, List.enumFrom, List.map_cons, join_cons, ih (i + 1)]

/-- Claim C5: for any segment list, the SRT file content is exactly the
concatenation of one cue block per segment, in input order, where the block
for the segment at (1-based) position `i` is `srtBlock i`: the index line,
the `start --> end` line in SRT style, the stripped text, and a blank line;
the indices enumerate `1..N` sequentially, and zero segments produce the
empty file. -/
theorem save_as_srt_c5 :
    (∀ segments : List Segment,
      save_as_srt segments =
        String.join ((segments.enumFrom 1).map (fun p => srtBlock p.1 p.2)) ∧
      (segments.enumFrom 1).map Prod.fst = List.range' 1 segments.length) ∧
    save_as_srt [] = "" :=
  ⟨fun segments => ⟨srtGo_eq_join segments 1, List.enumFrom_map_fst 1 segments⟩, rfl⟩

theorem digitChar_isDigit {k : ℕ} (h : k < 10) : (digitChar k).isDigit = true := by
  interval_cases k <;> decide

theorem natDigitsAux_digits (fuel : ℕ) :
    ∀ n c, c ∈ natDigitsAux fuel n → c.isDigit = true := by
  induction fuel with
  | zero => intro n c hc; simp [natDigitsAux] at hc
  | succ fuel ih =>
    intro n c hc
    rw [natDigitsAux] at hc
    split_ifs at hc with h
    · simp at hc; subst hc; exact digitChar_isDigit h
    · rcases List.mem_append.1 hc with h1 | h1
      · exact ih _ _ h1
      · simp at h1; subst h1
        exact digitChar_isDigit (Nat.mod_lt _ (by norm_num))

theorem natDigits_digits (n : ℕ) : ∀ c ∈ natDigits n, c.isDigit = true :=
  fun c hc => natDigitsAux_digits (n + 1) n c hc

theorem padZerosL_digits (w : ℕ) (n : ℤ) (h : 0 ≤ n) :
    ∀ c ∈ padZerosL w n, c.isDigit = true := by
  intro c hc
  rw [padZerosL, if_neg (by omega)] at hc
  rcases List.mem_append.1 hc with h1 | h1
  · rw [List.eq_of_mem_replicate h1]; decide
  · exact natDigits_digits _ c h1

theorem fmtFixed2_no_newline (q : ℚ) : '\n' ∉ (fmtFixed2 q).data := by
  intro hmem
  rw [fmtFixed2, data_mk] at hmem
  rcases List.mem_append.1 hmem with h1 | h1
  · split_ifs at h1 <;> exact absurd h1 (by decide)
  · rcases List.mem_append.1 h1 with h2 | h2
    · exact absurd (natDigits_digits _ _ h2) (by decide)
    · rcases List.mem_cons.1 h2 with h3 | h3
      · exact absurd h3 (by decide)
      · exact absurd (padZerosL_digits _ _ (Int.natCast_nonneg _) _ h3) (by decide)

theorem pyReplaceTab_no_tab (s : String) : '\t' ∉ (pyReplaceTab s).data := by
  intro hmem
  rw [pyReplaceTab, data_mk] at hmem
  rcases List.mem_map.1 hmem with ⟨c, _, hc⟩
  by_cases h : c = '\t'
  · rw [if_pos h] at hc; exact absurd hc (by decide)
  · rw [if_neg h] at hc; exact h hc

theorem stripL_subset (l : List Char) : ∀ c ∈ stripL l, c ∈ l := by
  intro c hc
  rw [stripL, List.mem_reverse] at hc
  have h1 := (List.dropWhile_sublist _).subset hc
  rw [List.mem_reverse] at h1
  exact (List.dropWhile_sublist _).subset h1

theorem rowtext_no_newline {seg : Segment} (h : '\n' ∉ seg.text.data) :
    '\n' ∉ (pyReplaceTab (pyStrip seg.text)).data := by
  intro hmem
  rw [pyReplaceTab, data_mk] at hmem
  rcases List.mem_map.1 hmem with ⟨c, hcmem, hc⟩
  rw [pyStrip, data_mk] at hcmem
  have hcl : c ∈ seg.text.data := stripL_subset _ c hcmem
  by_cases hcase : c = '\t'
  · rw [if_pos hcase] at hc; exact absurd hc (by decide)
  · rw [if_neg hcase] at hc; exact h (hc ▸ hcl)

theorem countNl_append (a b : String) : countNl (a ++ b) = countNl a + countNl b := by
  rw [countNl, countNl, countNl, String.data_append, List.count_append]

theorem countNl_zero {s : String} (h : '\n' ∉ s.data) : countNl s = 0 := by
  rw [countNl]; exact List.count_eq_zero.2 h

theorem countNl_tsvRow {seg : Segment} (h : '\n' ∉ seg.text.data) :
    countNl (tsvRow seg) = 1 := by
  rw [tsvRow, countNl_append, countNl_append, countNl_append, countNl_append,
    countNl_append, countNl_zero (fmtFixed2_no_newline seg.start),
    countNl_zero (fmtFixed2_no_newline seg.stop),
    countNl_zero (rowtext_no_newline h)]
  decide

theorem countNl_join (l : List String) :
    countNl (String.join l) = (l.map countNl).sum := by
  induction l with
  | nil => rfl
  | cons s rest ih =>
    rw [join_cons, countNl_append, ih, List.map_cons, List.sum_cons]

theorem sum_countNl_rows (segments : List Segment)
    (h : ∀ seg ∈ segments, '\n' ∉ seg.text.data) :
    ((segments.map tsvRow).map countNl).sum = segments.length := by
  induction segments with
  | nil => rfl
  | cons seg rest ih =>
    rw [List.map_cons, List.map_cons, List.sum_cons,
      countNl_tsvRow (h seg (List.mem_cons_self _ _)),
      ih (fun s hs => h s (List.mem_cons_of_mem _ hs)), List.length_cons]
    omega

/-- Claim C6 counterexample: a segment whose text contains an interior
newline makes the TSV output have more than N+1 lines: with one segment of
text `"a\nb"` the file contains 3 newline-terminated lines, not 2. -/
theorem save_as_tsv_newline_cex :
    countNl (save_as_tsv [⟨0, 1, "a\nb"⟩]) = 3 ∧
    countNl (save_as_tsv [⟨0, 1, "a\nb"⟩]) ≠ List.length [(⟨0, 1, "a\nb"⟩ : Segment)] + 1 := by
  have hr : rhe ((0:ℚ) * 100) = 0 := by norm_num [rhe, Int.fract]
  have hr1 : rhe ((1:ℚ) * 100) = 100 := by norm_num [rhe, Int.fract]
  have h0 : fmtFixed2 0 = "0.00" := by rw [fmtFixed2, hr]; decide
  have h1 : fmtFixed2 1 = "1.00" := by rw [fmtFixed2, hr1]; decide
  have hrow : tsvRow ⟨0, 1, "a\nb"⟩ = "0.00\t1.00\ta\nb\n" := by
    rw [tsvRow, h0, h1]; decide
  have hfile : save_as_tsv [⟨0, 1, "a\nb"⟩] =
      "start\tend\ttext\n" ++ ("0.00\t1.00\ta\nb\n" ++ String.join []) := by
    rw [save_as_tsv, List.map_cons, List.map_nil, join_cons, hrow]
  rw [hfile]
  constructor
  · decide
  · decide

/-- Claim C6 (amended): the TSV output is the header row followed by one row
per segment in input order; provided no segment's text contains a newline
character, the file has exactly N+1 newline-terminated lines; unconditionally,
no row's text field contains a literal tab (every tab of the stripped text is
replaced by a single space), and every `start`/`end` value is rendered as a
fixed-point decimal ending in a dot followed by exactly two digits. -/
theorem save_as_tsv_amended :
    (∀ segments : List Segment, (∀ seg ∈ segments, '\n' ∉ seg.text.data) →
      countNl (save_as_tsv segments) = segments.length + 1) ∧
    (∀ seg : Segment, '\t' ∉ (pyReplaceTab (pyStrip seg.text)).data) ∧
    (∀ q : ℚ, ∃ pre d1 d2, (fmtFixed2 q).data = pre ++ ['.', d1, d2] ∧
      d1.isDigit = true ∧ d2.isDigit = true) := by
  refine ⟨fun segments hseg => ?_, fun seg => pyReplaceTab_no_tab _, fun q => ?_⟩
  · rw [save_as_tsv, countNl_append, countNl_join, sum_countNl_rows segments hseg]
    have hhead : countNl "start\tend\ttext\n" = 1 := by decide
    rw [hhead]
    omega
  · have hlt : (((rhe (q * 100)).natAbs % 100 : ℕ) : ℤ) < 100 := by
      have := Nat.mod_lt (rhe (q * 100)).natAbs (show 0 < 100 by norm_num)
      exact_mod_cast this
    obtain ⟨d1, d2, hd⟩ := List.length_eq_two.1
      (padZerosL_length_two _ (Int.natCast_nonneg _) hlt)
    refine ⟨(if rhe (q * 100) < 0 then ['-'] else []) ++
      natDigits ((rhe (q * 100)).natAbs / 100), d1, d2, ?_, ?_, ?_⟩
    · rw [fmtFixed2, data_mk, hd, List.append_assoc]
    · refine padZerosL_digits 2 (((rhe (q * 100)).natAbs % 100 : ℕ) : ℤ)
        (Int.natCast_nonneg _) d1 ?_
      rw [hd]; simp
    · refine padZerosL_digits 2 (((rhe (q * 100)).natAbs % 100 : ℕ) : ℤ)
        (Int.natCast_nonneg _) d2 ?_
      rw [hd]; simp

/-- Witness for `save_as_tsv_amended` on a concrete one-segment input. -/
theorem save_as_tsv_amended_witness :
    countNl (save_as_tsv [⟨0, 1, "hi"⟩]) = 2 :=
  save_as_tsv_amended.1 [⟨0, 1, "hi"⟩] (by decide)

theorem dictInsert_map_pair (ks : List String) (f : String) (P : String → String) :
    dictInsert (ks.map (fun k => (k, P k))) f (P f) =
      (if f ∈ ks then ks else ks ++ [f]).map (fun k => (k, P k)) := by
  by_cases h : f ∈ ks
  · rw [if_pos h, dictInsert, if_pos]
    · rw [List.map_map]
      refine List.map_congr_left (fun k _ => ?_)
      simp only [Function.comp]
      by_cases hk : k = f
      · subst hk; simp
      · simp [hk]
    · exact List.any_eq_true.2 ⟨(f, P f), List.mem_map_of_mem _ h, by simp⟩
  · rw [if_neg h, dictInsert, if_neg, List.map_append]
    rfl
    intro hc
    rcases List.any_eq_true.1 hc with ⟨x, hx, hxf⟩
    rcases List.mem_map.1 hx with ⟨k, hk, rfl⟩
    have hkf : k = f := by simpa using hxf
    exact h (hkf ▸ hk)

/-- `keepFirst` continued from an accumulator. -/
def keyFold (ks : List String) (l : List String) : List String :=
  l.foldl (fun acc x => if x ∈ acc then acc else acc ++ [x]) ks

theorem keyFold_mem (l : List String) :
    ∀ ks x, x ∈ keyFold ks l ↔ x ∈ ks ∨ x ∈ l := by
  induction l with
  | nil => intro ks x; simp [keyFold]
  | cons a rest ih =>
    intro ks x
    rw [keyFold, List.foldl_cons]
    rw [show List.foldl (fun acc x => if x ∈ acc then acc else acc ++ [x])
      (if a ∈ ks then ks else ks ++ [a]) rest
        = keyFold (if a ∈ ks then ks else ks ++ [a]) rest from rfl]
    rw [ih]
    by_cases h : a ∈ ks
    · rw [if_pos h]
      simp only [List.mem_cons]
      constructor
      · rintro (hx | hx)
        · exact Or.inl hx
        · exact Or.inr (Or.inr hx)
      · rintro (hx | rfl | hx)
        · exact Or.inl hx
        · exact Or.inl h
        · exact Or.inr hx
    · rw [if_neg h]
      simp only [List.mem_append, List.mem_singleton, List.mem_cons]
      tauto

theorem saveLoop_inv (dir base : String) (formats : List String) :
    ∀ ks cs ws,
      saveLoop dir base formats
        ⟨ks.map (fun k => (k, savePath dir base k)), cs, ws⟩ =
      ⟨(keyFold ks (formats.filter (fun f => f ∈ format_handler_keys))).map
          (fun k => (k, savePath dir base k)),
        cs ++ (formats.filter (fun f => f ∈ format_handler_keys)).map
          (fun k => (k, savePath dir base k)),
        ws ++ formats.filter (fun f => f ∉ format_handler_keys)⟩ := by
  induction formats with
  | nil => intro ks cs ws; simp [saveLoop, keyFold]
  | cons f rest ih =>
    intro ks cs ws
    rw [saveLoop, List.foldl_cons]
    by_cases h : f ∈ format_handler_keys
    · rw [if_pos h, dictInsert_map_pair]
      have hrec := ih (if f ∈ ks then ks else ks ++ [f])
        (cs ++ [(f, savePath dir base f)]) ws
      rw [saveLoop] at hrec
      rw [hrec]
      simp [List.filter_cons, h, keyFold, List.append_assoc]
    · rw [if_neg h]
      have hrec := ih ks cs (ws ++ [f])
      rw [saveLoop] at hrec
      rw [hrec]
      simp [List.filter_cons, h, keyFold, List.append_assoc]

theorem keepFirst_eq_keyFold (l : List String) : keepFirst l = keyFold [] l := rfl

theorem save_transcript_eq (vid title dir : String) (formats : List String) :
    save_transcript vid title dir formats =
      ⟨(keepFirst (formats.filter (fun f => f ∈ format_handler_keys))).map
          (fun f => (f, savePath dir (vid ++ "_" ++ sanitize_filename title) f)),
        (formats.filter (fun f => f ∈ format_handler_keys)).map
          (fun f => (f, savePath dir (vid ++ "_" ++ sanitize_filename title) f)),
        formats.filter (fun f => f ∉ format_handler_keys)⟩ := by
  have hinv := saveLoop_inv dir (vid ++ "_" ++ sanitize_filename title) formats [] [] []
  simp only [List.map_nil, List.nil_append] at hinv
  rw [save_transcript, hinv, keepFirst_eq_keyFold]

/-- Claim C4: `save_transcript` never fails on an unknown format name: each
recognized format is recorded in the result mapping at path
`output_dir/base_filename.fmt`, unrecognized ones are reported by a warning
and omitted; with formats `["txt", "bogus", "srt"]` the returned mapping holds
exactly the keys `txt` and `srt`, in that order, and the only warning is for
`bogus`. -/
theorem save_transcript_c4 (vid title dir : String) :
    (save_transcript vid title dir ["txt", "bogus", "srt"]).files =
      [("txt", savePath dir (vid ++ "_" ++ sanitize_filename title) "txt"),
       ("srt", savePath dir (vid ++ "_" ++ sanitize_filename title) "srt")] ∧
    (save_transcript vid title dir ["txt", "bogus", "srt"]).files.map Prod.fst =
      ["txt", "srt"] ∧
    (save_transcript vid title dir ["txt", "bogus", "srt"]).warns = ["bogus"] := by
  rw [save_transcript_eq]
  have h1 : ["txt", "bogus", "srt"].filter (fun f => f ∈ format_handler_keys) =
      ["txt", "srt"] := by decide
  have h2 : ["txt", "bogus", "srt"].filter (fun f => f ∉ format_handler_keys) =
      ["bogus"] := by decide
  rw [h1, h2]
  have h3 : keepFirst ["txt", "srt"] = ["txt", "srt"] := by decide
  rw [h3]
  refine ⟨rfl, ?_, rfl⟩
  simp

/-- Claim C9: when the formats list repeats a recognized format, the
serializer is invoked once per occurrence (each at the same path), while the
returned mapping keeps exactly one entry per distinct recognized format, at
the position of its first occurrence; the mapping's key list is
`keepFirst (formats.filter recognized)`, and a key is in the mapping exactly
when it is a recognized requested format. -/
theorem save_transcript_c9 (vid title dir : String) (formats : List String) :
    (save_transcript vid title dir formats).calls =
      (formats.filter (fun f => f ∈ format_handler_keys)).map
        (fun f => (f, savePath dir (vid ++ "_" ++ sanitize_filename title) f)) ∧
    (save_transcript vid title dir formats).files =
      (keepFirst (formats.filter (fun f => f ∈ format_handler_keys))).map
        (fun f => (f, savePath dir (vid ++ "_" ++ sanitize_filename title) f)) ∧
    (save_transcript vid title dir formats).files.map Prod.fst =
      keepFirst (formats.filter (fun f => f ∈ format_handler_keys)) ∧
    (∀ f, f ∈ (save_transcript vid title dir formats).files.map Prod.fst ↔
      f ∈ formats ∧ f ∈ format_handler_keys) := by
  rw [save_transcript_eq]
  have hid : ∀ l : List String,
      l.map (Prod.fst ∘ fun f =>
        (f, savePath dir (vid ++ "_" ++ sanitize_filename title) f)) = l := by
    intro l
    rw [show (Prod.fst ∘ fun f =>
      (f, savePath dir (vid ++ "_" ++ sanitize_filename title) f)) = fun f => f from rfl]
    exact List.map_id' l
  refine ⟨rfl, rfl, by simp only [List.map_map]; exact hid _, fun f => ?_⟩
  simp only [List.map_map]
  rw [hid, keepFirst_eq_keyFold, keyFold_mem]
  simp [List.mem_filter]

/-- Claim C10: `clean_downloads` never deletes a file listed in `keep_files`;
when the download directory does not exist it returns with no change; it only
ever removes regular files directly inside the directory (directory entries
and everything outside are untouched, and the result's entries are a subset
of the original ones); and one file's failed deletion does not abort the
rest: an entry whose unlink fails stays, while every other deletable file is
still removed. -/
theorem clean_downloads_c10 (fs : FsState) (keep : List String)
    (unlink_ok : String → Bool) :
    (fs.dirExists = false → clean_downloads fs keep unlink_ok = fs) ∧
    (clean_downloads fs keep unlink_ok).dirExists = fs.dirExists ∧
    (clean_downloads fs keep unlink_ok).outside = fs.outside ∧
    (∀ e ∈ (clean_downloads fs keep unlink_ok).entries, e ∈ fs.entries) ∧
    (∀ e ∈ fs.entries, e.path ∈ keep → e ∈ (clean_downloads fs keep unlink_ok).entries) ∧
    (∀ e ∈ fs.entries, e.isFile = false → e ∈ (clean_downloads fs keep unlink_ok).entries) ∧
    (∀ e ∈ fs.entries, unlink_ok e.path = false →
      e ∈ (clean_downloads fs keep unlink_ok).entries) ∧
    (∀ e ∈ fs.entries, fs.dirExists = true → e.isFile = true → e.path ∉ keep →
      unlink_ok e.path = true → e ∉ (clean_downloads fs keep unlink_ok).entries) := by
  by_cases hdir : fs.dirExists = false
  · rw [clean_downloads, if_pos hdir]
    refine ⟨fun _ => rfl, rfl, rfl, fun e he => he, fun e he _ => he,
      fun e he _ => he, fun e he _ => he, fun e _ hd => ?_⟩
    rw [hdir] at hd
    exact absurd hd (by decide)
  · rw [clean_downloads, if_neg hdir]
    refine ⟨fun h => absurd h hdir, rfl, rfl, ?_, ?_, ?_, ?_, ?_⟩
    · intro e he
      exact (List.mem_filter.1 he).1
    · intro e he hkeep
      refine List.mem_filter.2 ⟨he, ?_⟩
      simp
      exact Or.inl (Or.inr hkeep)
    · intro e he hfile
      refine List.mem_filter.2 ⟨he, ?_⟩
      simp
      exact Or.inl (Or.inl hfile)
    · intro e he hfail
      refine List.mem_filter.2 ⟨he, ?_⟩
      simp
      exact Or.inr hfail
    · intro e he _ hfile hkeep hok hmem
      have hpred := (List.mem_filter.1 hmem).2
      simp [hfile, hok] at hpred
      exact hkeep hpred

/-- Witness for `clean_downloads_c10` on a concrete state: the kept file and
the directory entry survive, the unlisted file is deleted. -/
theorem clean_downloads_c10_witness :
    (⟨"d/keep.wav", true⟩ : FsEntry) ∈
      (clean_downloads
        ⟨true, [⟨"d/a.mp3", true⟩, ⟨"d/keep.wav", true⟩, ⟨"d/sub", false⟩], ["out.txt"]⟩
        ["d/keep.wav"] (fun _ => true)).entries ∧
    (⟨"d/a.mp3", true⟩ : FsEntry) ∉
      (clean_downloads
        ⟨true, [⟨"d/a.mp3", true⟩, ⟨"d/keep.wav", true⟩, ⟨"d/sub", false⟩], ["out.txt"]⟩
        ["d/keep.wav"] (fun _ => true)).entries :=
  ⟨(clean_downloads_c10 _ _ _).2.2.2.2.1 _ (by decide) (by decide),
   (clean_downloads_c10 _ _ _).2.2.2.2.2.2.2 _ (by decide) rfl rfl (by decide) rfl⟩
